import Mathlib

/-!
Verification of `preliminary_analysis.py` (Malaria-project).

The script computes per-column conservation scores of a multiple sequence
alignment, extracts highly conserved positions and scores at fixed key
residues, and batches this over folders of alignment files.

We embed the pure computational core shallowly:

* `calculate_conservation_scores` embeds the pandas pipeline
  `DataFrame(sequences) → applymap(normalize) → apply(value_counts(normalize=True).max)`:
  rows of unequal length are padded (pandas fills `NaN`, which the
  `applymap` lambda sends to `"-"` since `NaN` is not a canonical amino
  acid), every symbol outside `ACDEFGHIKLMNPQRSTVWY` is replaced by `"-"`,
  and each column reports the frequency (count over row count) of its most
  frequent normalized symbol, as an exact rational.
* `highlyConserved` embeds the comprehension
  `[(i+1, s) for i, s in enumerate(scores) if s > 0.95]` from
  `analyze_msa_file`.
* `analyze_key_residues` embeds the loop over configured positions; the
  pandas `Series` read `conservation_scores[pos-1]` is label-based on a
  `RangeIndex`, so a negative label raises `KeyError`: we model the whole
  loop in `Option`, with `none` for the raised exception.
* `process_folder` and `mainCombinedOutput` embed the control flow of the
  batch driver: per-file analysis outcomes are parameters (`Except`), the
  `try/except` appends successes and drops failures, and `main` serializes
  the accumulated table only when it is non-empty.
-/

attribute [local semireducible] Rat.mul Rat.inv Rat.add Rat.sub Rat.ofScientific

/-- The 20-letter canonical amino-acid alphabet from `valid_amino_acids`. -/
def validAminoAcids : List Char := "ACDEFGHIKLMNPQRSTVWY".toList

/-- The gap marker the script substitutes for non-canonical symbols. -/
def gapChar : Char := '-'

/-- `applymap(lambda x: x if x in valid_amino_acids else "-")` on one cell. -/
def normalizeSymbol (c : Char) : Char :=
  if c ∈ validAminoAcids then c else gapChar

/-- Number of columns of `DataFrame(sequences)`: the maximum row length. -/
def alignmentWidth (seqs : List (List Char)) : Nat :=
  seqs.foldr (fun s m => max s.length m) 0

/-- Column `j` of the normalized data frame: one normalized symbol per
sequence; a row shorter than `j+1` holds `NaN`, which normalizes to the
gap marker (the `getD` default is already the gap). -/
def columnAt (seqs : List (List Char)) (j : Nat) : List Char :=
  seqs.map (fun s => normalizeSymbol (s.getD j gapChar))

/-- The largest multiplicity of any symbol of the column: the numerator of
`value_counts(normalize=True).max()`. -/
def maxSymbolCount (col : List Char) : Nat :=
  (col.map (fun c => col.count c)).foldr max 0

/-- `col.value_counts(normalize=True).max()`: frequency of the most
frequent symbol over all rows, as an exact rational. -/
def columnScore (col : List Char) : ℚ :=
  (maxSymbolCount col : ℚ) / (col.length : ℚ)

/-- `calculate_conservation_scores`: one score per data-frame column. -/
def calculate_conservation_scores (seqs : List (List Char)) : List ℚ :=
  (List.range (alignmentWidth seqs)).map (fun j => columnScore (columnAt seqs j))

/-- Helper for `highlyConserved`, carrying the 0-based index `i` of
`enumerate`. -/
def highlyConservedAux : Nat → List ℚ → List (Nat × ℚ)
  | _, [] => []
  | i, s :: rest =>
      if 95 / 100 < s then (i + 1, s) :: highlyConservedAux (i + 1) rest
      else highlyConservedAux (i + 1) rest

/-- `[(i+1, score) for i, score in enumerate(conservation_scores) if score > 0.95]`
from `analyze_msa_file`. -/
def highlyConserved (profile : List ℚ) : List (Nat × ℚ) :=
  highlyConservedAux 0 profile

/-- Label-based `Series` read `conservation_scores[i]` over a `RangeIndex`:
the labels are exactly `0, …, len-1`, so any other integer label (in
particular a negative one) raises `KeyError`, modelled as `none`. -/
def seriesGet (profile : List ℚ) (i : Int) : Option ℚ :=
  if h : 0 ≤ i ∧ i.toNat < profile.length then some (profile.get ⟨i.toNat, h.2⟩)
  else none

/-- `analyze_key_residues`, abstracted over the already computed profile:
the loop keeps every position `pos ≤ len(conservation_scores)` and reads
`conservation_scores[pos - 1]`; a failing read raises, aborting the whole
call (`none`). Rows are accumulated in loop order. -/
def analyze_key_residues (profile : List ℚ) (positions : List Int) :
    Option (List (Int × ℚ)) :=
  positions.foldlM
    (fun acc pos =>
      if pos ≤ (profile.length : Int) then
        (seriesGet profile (pos - 1)).map (fun s => acc ++ [(pos, s)])
      else some acc)
    []

/-- The `try/except` loop of `process_folder`: each file's analysis outcome
is given as an `Except` value (the analysis itself is I/O); a success is
appended to the accumulator, a failure is logged and skipped. -/
def process_folder {ε α : Type} (fileResults : List (Except ε α)) : List α :=
  fileResults.foldl
    (fun acc r =>
      match r with
      | Except.ok res => acc ++ [res]
      | Except.error _ => acc)
    []

/-- The accumulator of `main`: each configured version folder is either
absent (`none`, a warning) or present with its per-file outcomes; the
results of every present folder are appended in order. -/
def accumulatedResults {ε α : Type}
    (versions : List (Option (List (Except ε α)))) : List α :=
  (versions.filterMap id).foldl (fun acc fr => acc ++ process_folder fr) []

/-- The tail of `main`: `if all_version_results:` serialize the combined
table, else write nothing (`none`). -/
def mainCombinedOutput {ε α : Type}
    (versions : List (Option (List (Except ε α)))) : Option (List α) :=
  if (accumulatedResults versions).isEmpty then none
  else some (accumulatedResults versions)

/-! ### Helper lemmas about the scorer -/

lemma length_columnAt (seqs : List (List Char)) (j : Nat) :
    (columnAt seqs j).length = seqs.length := by
  simp [columnAt]

lemma length_calculate_conservation_scores (seqs : List (List Char)) :
    (calculate_conservation_scores seqs).length = alignmentWidth seqs := by
  simp [calculate_conservation_scores]

lemma exists_of_lt_alignmentWidth {seqs : List (List Char)} {j : Nat}
    (hj : j < alignmentWidth seqs) : ∃ s ∈ seqs, j < s.length := by
  induction seqs with
  | nil => simp [alignmentWidth] at hj
  | cons s rest ih =>
      rw [alignmentWidth, List.foldr_cons, lt_max_iff] at hj
      rcases hj with h | h
      · exact ⟨s, List.mem_cons_self s rest, h⟩
      · rcases ih h with ⟨t, ht, hlen⟩
        exact ⟨t, List.mem_cons_of_mem s ht, hlen⟩

lemma ne_nil_of_lt_alignmentWidth {seqs : List (List Char)} {j : Nat}
    (hj : j < alignmentWidth seqs) : seqs ≠ [] := by
  rcases exists_of_lt_alignmentWidth hj with ⟨s, hs, _⟩
  exact List.ne_nil_of_mem hs

lemma getD_calculate_conservation_scores (seqs : List (List Char)) (j : Nat)
    (hj : j < alignmentWidth seqs) :
    (calculate_conservation_scores seqs).getD j 0 = columnScore (columnAt seqs j) := by
  rw [calculate_conservation_scores, List.getD_eq_getElem?_getD,
    List.getElem?_map, List.getElem?_range hj]
  rfl

lemma foldr_max_le {l : List Nat} {n : Nat} (h : ∀ x ∈ l, x ≤ n) :
    l.foldr max 0 ≤ n := by
  induction l with
  | nil => exact Nat.zero_le n
  | cons x rest ih =>
      rw [List.foldr_cons]
      exact Nat.max_le.mpr ⟨h x (List.mem_cons_self x rest),
        ih (fun y hy => h y (List.mem_cons_of_mem x hy))⟩

lemma le_foldr_max {l : List Nat} {x : Nat} (hx : x ∈ l) : x ≤ l.foldr max 0 := by
  induction l with
  | nil => simp at hx
  | cons y rest ih =>
      rw [List.foldr_cons]
      rcases List.mem_cons.mp hx with h | h
      · exact h ▸ Nat.le_max_left y (rest.foldr max 0)
      · exact Nat.le_trans (ih h) (Nat.le_max_right y (rest.foldr max 0))

lemma count_le_maxSymbolCount {col : List Char} {c : Char} (hc : c ∈ col) :
    col.count c ≤ maxSymbolCount col :=
  le_foldr_max (List.mem_map_of_mem (fun a => col.count a) hc)

lemma maxSymbolCount_le_length (col : List Char) :
    maxSymbolCount col ≤ col.length := by
  refine foldr_max_le ?_
  intro x hx
  rcases List.mem_map.mp hx with ⟨c, _, rfl⟩
  exact List.count_le_length c col

lemma maxSymbolCount_eq_length_of_all_eq {col : List Char} {e : Char}
    (hne : col ≠ []) (hall : ∀ c ∈ col, c = e) :
    maxSymbolCount col = col.length := by
  have hmem : e ∈ col := by
    rcases List.exists_mem_of_ne_nil col hne with ⟨c, hc⟩
    exact (hall c hc) ▸ hc
  have hcount : col.count e = col.length :=
    List.count_eq_length.mpr (fun b hb => (hall b hb).symm)
  exact Nat.le_antisymm (maxSymbolCount_le_length col)
    (hcount ▸ count_le_maxSymbolCount hmem)

lemma maxSymbolCount_eq_one_of_nodup {col : List Char}
    (hne : col ≠ []) (hnd : col.Nodup) : maxSymbolCount col = 1 := by
  rcases List.exists_mem_of_ne_nil col hne with ⟨c, hc⟩
  have hone : ∀ d ∈ col, col.count d = 1 := fun d hd =>
    Nat.le_antisymm (List.nodup_iff_count_le_one.mp hnd d) (List.count_pos_iff.mpr hd)
  have hle : maxSymbolCount col ≤ 1 := by
    refine foldr_max_le ?_
    intro x hx
    rcases List.mem_map.mp hx with ⟨d, hd, rfl⟩
    exact Nat.le_of_eq (hone d hd)
  have hge : 1 ≤ maxSymbolCount col := (hone c hc) ▸ count_le_maxSymbolCount hc
  exact Nat.le_antisymm hle hge

lemma columnScore_all_eq {seqs : List (List Char)} {j : Nat} {e : Char}
    (hne : seqs ≠ []) (hall : ∀ c ∈ columnAt seqs j, c = e) :
    columnScore (columnAt seqs j) = 1 := by
  have hcne : columnAt seqs j ≠ [] := by
    simp [columnAt, hne]
  rw [columnScore, maxSymbolCount_eq_length_of_all_eq hcne hall]
  have hpos : (columnAt seqs j).length ≠ 0 :=
    Nat.pos_iff_ne_zero.mp (List.length_pos.mpr hcne)
  exact div_self (Nat.cast_ne_zero.mpr hpos)

/-! ### Helper lemmas about the highly conserved list -/

lemma mem_highlyConservedAux : ∀ (p : List ℚ) (i pos : Nat) (score : ℚ),
    ((pos, score) ∈ highlyConservedAux i p ↔
      ∃ j, ∃ h : j < p.length, pos = i + j + 1 ∧ p[j] = score ∧ 95 / 100 < score)
  | [], i, pos, score => by simp [highlyConservedAux]
  | s :: rest, i, pos, score => by
      have ih := mem_highlyConservedAux rest (i + 1) pos score
      rw [highlyConservedAux]
      by_cases hc : 95 / 100 < s
      · rw [if_pos hc, List.mem_cons, ih]
        constructor
        · rintro (heq | ⟨k, hk, hpos, hget, hs⟩)
          · rw [Prod.mk.injEq] at heq
            obtain ⟨h1, h2⟩ := heq
            refine ⟨0, by simp, by omega, ?_, ?_⟩
            · simpa using h2.symm
            · rw [h2]; exact hc
          · exact ⟨k + 1, by simpa using hk, by omega, by simpa using hget, hs⟩
        · rintro ⟨j, hj, hpos, hget, hs⟩
          cases j with
          | zero =>
              left
              simp only [List.getElem_cons_zero] at hget
              rw [Prod.mk.injEq]
              exact ⟨by omega, hget.symm⟩
          | succ k =>
              right
              exact ⟨k, by simpa using hj, by omega, by simpa using hget, hs⟩
      · rw [if_neg hc, ih]
        constructor
        · rintro ⟨k, hk, hpos, hget, hs⟩
          exact ⟨k + 1, by simpa using hk, by omega, by simpa using hget, hs⟩
        · rintro ⟨j, hj, hpos, hget, hs⟩
          cases j with
          | zero =>
              simp only [List.getElem_cons_zero] at hget
              subst hget
              exact absurd hs hc
          | succ k =>
              exact ⟨k, by simpa using hj, by omega, by simpa using hget, hs⟩

lemma mem_highlyConserved {p : List ℚ} {pos : Nat} {score : ℚ} :
    (pos, score) ∈ highlyConserved p ↔
      ∃ j, ∃ h : j < p.length, pos = j + 1 ∧ p[j] = score ∧ 95 / 100 < score := by
  rw [highlyConserved, mem_highlyConservedAux]
  constructor
  · rintro ⟨j, hj, hpos, hget, hs⟩
    exact ⟨j, hj, by omega, hget, hs⟩
  · rintro ⟨j, hj, hpos, hget, hs⟩
    exact ⟨j, hj, by omega, hget, hs⟩

lemma fst_lt_of_mem_highlyConservedAux (p : List ℚ) (i : Nat) (q : Nat × ℚ)
    (hq : q ∈ highlyConservedAux i p) : i < q.1 := by
  obtain ⟨pos, score⟩ := q
  rcases (mem_highlyConservedAux p i pos score).mp hq with ⟨j, hj, hpos, _, _⟩
  simp only
  omega

lemma pairwise_highlyConservedAux : ∀ (p : List ℚ) (i : Nat),
    (highlyConservedAux i p).Pairwise (fun a b => a.1 < b.1)
  | [], _ => by simp [highlyConservedAux]
  | s :: rest, i => by
      rw [highlyConservedAux]
      by_cases hc : 95 / 100 < s
      · rw [if_pos hc]
        refine List.Pairwise.cons ?_ (pairwise_highlyConservedAux rest (i + 1))
        intro q hq
        exact fst_lt_of_mem_highlyConservedAux rest (i + 1) q hq
      · rw [if_neg hc]
        exact pairwise_highlyConservedAux rest (i + 1)

lemma alignmentWidth_of_all_length {seqs : List (List Char)} {L : Nat}
    (hne : seqs ≠ []) (hlen : ∀ s ∈ seqs, s.length = L) : alignmentWidth seqs = L := by
  induction seqs with
  | nil => exact absurd rfl hne
  | cons s rest ih =>
      cases rest with
      | nil =>
          simp [alignmentWidth, hlen s (List.mem_cons_self s [])]
      | cons t ts =>
          have hw : alignmentWidth (t :: ts) = L :=
            ih (by simp) (fun u hu => hlen u (List.mem_cons_of_mem s hu))
          rw [alignmentWidth, List.foldr_cons] at hw
          rw [alignmentWidth, List.foldr_cons, List.foldr_cons, hw,
            hlen s (List.mem_cons_self s (t :: ts))]
          exact max_self L

/-! ### Helper lemmas about the key-residue loop and the batch driver -/

lemma seriesGet_of_bounds (profile : List ℚ) (p : Int) (h1 : 1 ≤ p)
    (h2 : p ≤ (profile.length : Int)) :
    seriesGet profile (p - 1) = some (profile.getD (p - 1).toNat 0) := by
  have h0 : 0 ≤ p - 1 := by omega
  have hlt : (p - 1).toNat < profile.length := by omega
  rw [seriesGet, dif_pos ⟨h0, hlt⟩, List.getD_eq_getElem?_getD, List.getElem?_eq_getElem hlt]
  rfl

lemma key_residues_loop (profile : List ℚ) :
    ∀ (positions : List Int) (acc : List (Int × ℚ)),
    (∀ p ∈ positions, 1 ≤ p) →
    (positions.foldlM
      (fun acc pos =>
        if pos ≤ (profile.length : Int) then
          (seriesGet profile (pos - 1)).map (fun s => acc ++ [(pos, s)])
        else some acc)
      acc)
      = some (acc ++ (positions.filter (fun p => p ≤ (profile.length : Int))).map
          (fun p => (p, profile.getD (p - 1).toNat 0)))
  | [], acc, _ => by simp
  | p :: ps, acc, hpos => by
      have h1 : 1 ≤ p := hpos p (List.mem_cons_self p ps)
      have hrest : ∀ q ∈ ps, 1 ≤ q := fun q hq => hpos q (List.mem_cons_of_mem p hq)
      rw [List.foldlM_cons]
      by_cases h2 : p ≤ (profile.length : Int)
      · rw [if_pos h2, seriesGet_of_bounds profile p h1 h2]
        simp only [Option.map_some', Option.bind_eq_bind, Option.some_bind]
        rw [key_residues_loop profile ps (acc ++ [(p, profile.getD (p - 1).toNat 0)]) hrest]
        simp [List.filter_cons, h2]
      · rw [if_neg h2]
        simp only [Option.bind_eq_bind, Option.some_bind]
        rw [key_residues_loop profile ps acc hrest]
        simp [List.filter_cons, h2]

lemma process_folder_loop {ε α : Type} :
    ∀ (l : List (Except ε α)) (acc : List α),
    (l.foldl
      (fun acc r =>
        match r with
        | Except.ok res => acc ++ [res]
        | Except.error _ => acc)
      acc)
      = acc ++ l.filterMap Except.toOption
  | [], acc => by simp
  | Except.ok a :: rest, acc => by
      rw [List.foldl_cons, process_folder_loop rest (acc ++ [a])]
      simp [Except.toOption]
  | Except.error e :: rest, acc => by
      rw [List.foldl_cons, process_folder_loop rest acc]
      simp [Except.toOption]

lemma process_folder_eq_filterMap {ε α : Type} (l : List (Except ε α)) :
    process_folder l = l.filterMap Except.toOption := by
  rw [process_folder, process_folder_loop]
  simp

/-! ### Claim theorems -/

/-- C1: every symbol outside `ACDEFGHIKLMNPQRSTVWY` is normalized to the gap
marker before counting, and the column score is the frequency (count over
number of sequences) of the most frequent symbol, the normalized gap
included; hence a column whose raw symbols are all non-canonical scores
`1.0`, and a column more than 95% gaps after normalization lands in the
highly conserved list. -/
theorem conservation_gap_counting_quirk (seqs : List (List Char)) (j : Nat)
    (hj : j < alignmentWidth seqs) :
    (calculate_conservation_scores seqs).getD j 0 =
      (maxSymbolCount (columnAt seqs j) : ℚ) / (seqs.length : ℚ) ∧
    ((∀ s ∈ seqs, s.getD j gapChar ∉ validAminoAcids) →
      (calculate_conservation_scores seqs).getD j 0 = 1) ∧
    (95 / 100 < ((columnAt seqs j).count gapChar : ℚ) / (seqs.length : ℚ) →
      (j + 1, (calculate_conservation_scores seqs).getD j 0) ∈
        highlyConserved (calculate_conservation_scores seqs)) := by
  have hne := ne_nil_of_lt_alignmentWidth hj
  refine ⟨?_, ?_, ?_⟩
  · rw [getD_calculate_conservation_scores seqs j hj, columnScore, length_columnAt]
  · intro hall
    rw [getD_calculate_conservation_scores seqs j hj]
    refine columnScore_all_eq (e := gapChar) hne ?_
    intro d hd
    rcases List.mem_map.mp hd with ⟨s, hs, rfl⟩
    rw [normalizeSymbol, if_neg (hall s hs)]
  · intro hgap
    have hmem : gapChar ∈ columnAt seqs j := by
      by_contra hnm
      rw [List.count_eq_zero.mpr hnm] at hgap
      norm_num at hgap
    have hle : ((columnAt seqs j).count gapChar : ℚ) / (seqs.length : ℚ)
        ≤ (maxSymbolCount (columnAt seqs j) : ℚ) / (seqs.length : ℚ) := by
      gcongr
      exact_mod_cast count_le_maxSymbolCount hmem
    have hscore : 95 / 100 < (calculate_conservation_scores seqs).getD j 0 := by
      rw [getD_calculate_conservation_scores seqs j hj, columnScore, length_columnAt]
      exact lt_of_lt_of_le hgap hle
    have hjlen : j < (calculate_conservation_scores seqs).length := by
      rw [length_calculate_conservation_scores]
      exact hj
    refine mem_highlyConserved.mpr ⟨j, hjlen, rfl, ?_, hscore⟩
    exact (List.getD_eq_getElem (calculate_conservation_scores seqs) 0 hjlen).symm

/-- Witness for C1, at the alignment `[["X"], ["X"]]` and column 0: both raw
symbols are non-canonical, the column is 100% gaps after normalization, the
score is `1.0` and position 1 is reported highly conserved. -/
theorem conservation_gap_counting_quirk_witness :
    (calculate_conservation_scores [['X'], ['X']]).getD 0 0 = 1 ∧
    (0 + 1, (calculate_conservation_scores [['X'], ['X']]).getD 0 0) ∈
      highlyConserved (calculate_conservation_scores [['X'], ['X']]) := by
  have h := conservation_gap_counting_quirk [['X'], ['X']] 0 (by decide)
  exact ⟨h.2.1 (by decide), h.2.2 (by decide)⟩

/-- C2 counterexample: the two sequences `["X"]` and `["B"]` carry two
pairwise-distinct symbols at column 0, yet the score is `1`, not `1/2`:
both symbols are non-canonical, so both are normalized to the gap marker
before counting. -/
theorem distinct_symbols_score_counterexample :
    ('X' : Char) ≠ 'B' ∧
    calculate_conservation_scores [['X'], ['B']] ≠ [(1 : ℚ) / 2] ∧
    calculate_conservation_scores [['X'], ['B']] = [1] := by decide

/-- C2 amended: if the symbols of a column are still pairwise distinct
after gap-normalization, the score of that column is `1/n` for `n`
sequences. -/
theorem distinct_normalized_symbols_score (seqs : List (List Char)) (j : Nat)
    (hj : j < alignmentWidth seqs) (hnd : (columnAt seqs j).Nodup) :
    (calculate_conservation_scores seqs).getD j 0 = 1 / (seqs.length : ℚ) := by
  have hne := ne_nil_of_lt_alignmentWidth hj
  have hcne : columnAt seqs j ≠ [] := by simp [columnAt, hne]
  rw [getD_calculate_conservation_scores seqs j hj, columnScore,
    maxSymbolCount_eq_one_of_nodup hcne hnd, length_columnAt]
  norm_num

/-- Witness for the amended C2, at the alignment `[["A"], ["C"]]` and
column 0. -/
theorem distinct_normalized_symbols_score_witness :
    (calculate_conservation_scores [['A'], ['C']]).getD 0 0 =
      1 / ((([['A'], ['C']] : List (List Char)).length : ℚ)) :=
  distinct_normalized_symbols_score [['A'], ['C']] 0 (by decide) (by decide)

/-- C3: a column of a non-empty alignment at which every sequence carries
the identical symbol scores `1.0`. -/
theorem identical_column_score_one (seqs : List (List Char)) (c : Char) (j : Nat)
    (hne : seqs ≠ []) (hj : j < alignmentWidth seqs)
    (hall : ∀ s ∈ seqs, s.getD j gapChar = c) :
    (calculate_conservation_scores seqs).getD j 0 = 1 := by
  rw [getD_calculate_conservation_scores seqs j hj]
  refine columnScore_all_eq (e := normalizeSymbol c) hne ?_
  intro d hd
  rcases List.mem_map.mp hd with ⟨s, hs, rfl⟩
  rw [hall s hs]

/-- Witness for C3, at the alignment `[["A"], ["A"], ["A"]]` and column 0. -/
theorem identical_column_score_one_witness :
    (calculate_conservation_scores [['A'], ['A'], ['A']]).getD 0 0 = 1 :=
  identical_column_score_one [['A'], ['A'], ['A']] 'A' 0 (by decide) (by decide)
    (by decide)

/-- C4: end-to-end on three identical copies of `"ACDEF"`: the profile is
all ones, the highly conserved list holds all five positions, and the
key-residue rows for positions 285, 417, 447 are empty since all three
exceed length 5. -/
theorem identical_alignment_end_to_end :
    calculate_conservation_scores ["ACDEF".toList, "ACDEF".toList, "ACDEF".toList]
      = [1, 1, 1, 1, 1] ∧
    highlyConserved
        (calculate_conservation_scores ["ACDEF".toList, "ACDEF".toList, "ACDEF".toList])
      = [(1, 1), (2, 1), (3, 1), (4, 1), (5, 1)] ∧
    analyze_key_residues
        (calculate_conservation_scores ["ACDEF".toList, "ACDEF".toList, "ACDEF".toList])
        [285, 417, 447]
      = some [] := by decide

/-- C5: for a non-empty alignment whose sequences all have length `L`, the
profile has length `L`. -/
theorem profile_length_eq_width (seqs : List (List Char)) (L : Nat)
    (hne : seqs ≠ []) (hlen : ∀ s ∈ seqs, s.length = L) :
    (calculate_conservation_scores seqs).length = L := by
  rw [length_calculate_conservation_scores, alignmentWidth_of_all_length hne hlen]

/-- Witness for C5, at an alignment of two sequences of length 2. -/
theorem profile_length_eq_width_witness :
    (calculate_conservation_scores [['A', 'C'], ['D', 'E']]).length = 2 :=
  profile_length_eq_width [['A', 'C'], ['D', 'E']] 2 (by decide) (by decide)

/-- C6 counterexample: the claim ranges over every list of configured
positions, but for position `0` against a profile of length 1 the loop does
not skip and does not emit rows: the bound check `0 ≤ 1` passes, the read
at label `-1` raises, and the whole call aborts (`none`) instead of
returning a table. -/
theorem key_residues_zero_position_counterexample :
    analyze_key_residues [(1 : ℚ)] [0] = none ∧
    analyze_key_residues [(1 : ℚ)] [0] ≠ some [] := by decide

/-- C6 amended: for every profile and every list of positions that are all
at least 1, the key-residue rows are exactly the input positions that are
at most the profile length, in input order, each paired with its
(1-indexed) score; larger positions are silently skipped. -/
theorem key_residues_filter_spec (profile : List ℚ) (positions : List Int)
    (hpos : ∀ p ∈ positions, 1 ≤ p) :
    analyze_key_residues profile positions =
      some ((positions.filter (fun p => p ≤ (profile.length : Int))).map
        (fun p => (p, profile.getD (p - 1).toNat 0))) := by
  rw [analyze_key_residues, key_residues_loop profile positions [] hpos]
  simp

set_option maxRecDepth 8000 in
/-- Witness for the amended C6: positions `[285, 417, 447]` against a
profile of length 400 yield exactly the row for position 285. -/
theorem key_residues_filter_spec_witness :
    analyze_key_residues (List.replicate 400 (1 : ℚ)) [285, 417, 447]
      = some [(285, 1)] := by
  rw [key_residues_filter_spec (List.replicate 400 (1 : ℚ)) [285, 417, 447] (by decide)]
  rfl

/-- C7: extracting the highly conserved list twice from the same profile
yields identical results; a pair belongs to the list exactly when it is a
1-indexed position of the profile whose score strictly exceeds `0.95`,
paired with that score; and the list is in strictly ascending position
order (hence no cap on its size). -/
theorem highly_conserved_characterization (profile : List ℚ) :
    highlyConserved profile = highlyConserved profile ∧
    (∀ pos score, ((pos, score) ∈ highlyConserved profile ↔
      ∃ h : pos - 1 < profile.length,
        1 ≤ pos ∧ profile[pos - 1] = score ∧ 95 / 100 < score)) ∧
    (highlyConserved profile).Pairwise (fun a b => a.1 < b.1) := by
  refine ⟨rfl, ?_, pairwise_highlyConservedAux profile 0⟩
  intro pos score
  rw [mem_highlyConserved]
  constructor
  · rintro ⟨j, hj, rfl, hget, hs⟩
    refine ⟨by simpa using hj, by omega, ?_, hs⟩
    simpa using hget
  · rintro ⟨h, h1, hget, hs⟩
    exact ⟨pos - 1, h, by omega, hget, hs⟩

/-- Witness for C7 at the profile `[1, 9/10]`: only position 1 qualifies. -/
theorem highly_conserved_characterization_witness :
    (1, (1 : ℚ)) ∈ highlyConserved [1, 9 / 10] ∧
    ¬ (2, (9 / 10 : ℚ)) ∈ highlyConserved [1, 9 / 10] := by
  have h := highly_conserved_characterization [1, 9 / 10]
  constructor
  · exact (h.2.1 1 1).mpr ⟨by decide, by decide, by decide, by decide⟩
  · intro hmem
    rcases (h.2.1 2 (9 / 10)).mp hmem with ⟨hb, _, hget, hs⟩
    revert hs
    decide

/-- C8: in the batch loop, a file whose analysis fails contributes no entry
and does not abort the batch: the accumulated results of a file list with
one failing file are exactly those of the files before it followed by those
of the files after it. -/
theorem per_file_failure_isolation {ε α : Type} (xs ys : List (Except ε α)) (e : ε) :
    process_folder (xs ++ Except.error e :: ys) = process_folder (xs ++ ys) ∧
    process_folder (xs ++ Except.error e :: ys)
      = process_folder xs ++ process_folder ys := by
  constructor
  · rw [process_folder_eq_filterMap, process_folder_eq_filterMap]
    simp [Except.toOption]
  · rw [process_folder_eq_filterMap, process_folder_eq_filterMap,
      process_folder_eq_filterMap]
    simp [Except.toOption]

/-- Witness for C8: a failing file between two successes contributes
nothing and the batch continues. -/
theorem per_file_failure_isolation_witness :
    process_folder
        ([Except.ok 1] ++ Except.error "bad file" :: [Except.ok 2]
          : List (Except String Nat))
      = process_folder ([Except.ok 1] ++ [Except.ok 2] : List (Except String Nat)) ∧
    process_folder
        ([Except.ok 1] ++ Except.error "bad file" :: [Except.ok 2]
          : List (Except String Nat))
      = process_folder ([Except.ok 1] : List (Except String Nat))
          ++ process_folder ([Except.ok 2] : List (Except String Nat)) :=
  per_file_failure_isolation [Except.ok 1] [Except.ok 2] "bad file"

/-- C9: `main` serializes no combined output exactly when the accumulated
results of all configured versions are empty. -/
theorem combined_output_skipped_iff_empty {ε α : Type}
    (versions : List (Option (List (Except ε α)))) :
    mainCombinedOutput versions = none ↔ accumulatedResults versions = [] := by
  rw [mainCombinedOutput]
  by_cases h : accumulatedResults versions = []
  · simp [h]
  · simp [h, List.isEmpty_iff]

/-- Witness for C9: a run with one missing folder and one folder whose only
file fails accumulates nothing and writes no combined output; a run with a
successful file writes its table. -/
theorem combined_output_skipped_iff_empty_witness :
    mainCombinedOutput
        ([none, some [Except.error "parse error"]]
          : List (Option (List (Except String Nat))))
      = none ∧
    mainCombinedOutput
        ([some [Except.ok 7]] : List (Option (List (Except String Nat)))) ≠ none := by
  constructor
  · exact (combined_output_skipped_iff_empty
      ([none, some [Except.error "parse error"]]
        : List (Option (List (Except String Nat))))).mpr (by decide)
  · intro h
    have hc := (combined_output_skipped_iff_empty
      ([some [Except.ok 7]] : List (Option (List (Except String Nat))))).mp h
    revert hc
    decide

/-- C10: the key-residue loop checks only the upper bound: for position `0`
against a profile of length 1 the check `0 ≤ 1` passes, the loop does not
omit the row but reads the series at the negative label `-1`, which has no
entry, so the call yields no table at all. -/
theorem key_residues_negative_index_read :
    ((0 : Int) ≤ (([(1 : ℚ)] : List ℚ).length : Int)) ∧
    seriesGet [(1 : ℚ)] (0 - 1) = none ∧
    analyze_key_residues [(1 : ℚ)] [0] = none := by decide
